import Mathlib

/-!
Shallow embedding of the bmfont binary decoder (src/lib.rs) and proofs about it.

The source decodes a BMFont binary byte buffer into a BMFont document via a
single sequential pass over a std::io::Cursor.  Bytes are modelled as Nat
values (each below 256 in any real buffer), the buffer as a List Nat, and the
cursor as a position into that list.  Strings are kept as their raw UTF-8 byte
lists; UTF-8 validity (String::from_utf8) is modelled by an explicit DFA.
Fallible operations return Except ParseError.
-/

namespace Bmf

/--
Errors produced by parse_bin and its helper macros, one constructor per
distinct error site of the source:
* badSignature  : Error::new(InvalidData, "Missing BMF file identifier")
* invalidString : Error::new(InvalidData, "Invalid string") in parse_string
* invalidUtf8   : Error::new(InvalidData, err) for a String::from_utf8 failure
* unexpectedEof : the UnexpectedEof error of Read::read_exact
-/
inductive ParseError where
  | badSignature
  | invalidString
  | invalidUtf8
  | unexpectedEof
deriving DecidableEq

/-- std::io::Cursor over the input byte slice: the underlying data plus the
current position.  The position may legally point past the end of the data. -/
structure Cursor where
  data : List Nat
  pos : Nat
deriving DecidableEq

/-- Read::read_exact of n bytes: succeeds returning exactly the next n bytes
and advancing the position by n when n bytes remain, fails with UnexpectedEof
otherwise (no partial result, as in the Cursor implementation of read_exact). -/
def readExact (c : Cursor) (n : Nat) : Except ParseError (List Nat × Cursor) :=
  if n ≤ c.data.length - c.pos then
    Except.ok ((c.data.drop c.pos).take n, ⟨c.data, c.pos + n⟩)
  else
    Except.error ParseError.unexpectedEof

/-- Cursor seek with SeekFrom::Current(n) for a nonnegative n, as used by the
source to skip block headers: it never fails and may move the position past
the end of the underlying buffer (std::io::Cursor permits this). -/
def seekCurrent (c : Cursor) (n : Nat) : Except ParseError Cursor :=
  Except.ok ⟨c.data, c.pos + n⟩

/-- parse_u8 macro: read one byte (val[0]). -/
def parse_u8 (c : Cursor) : Except ParseError (Nat × Cursor) := do
  let (val, c) ← readExact c 1
  pure (val.getD 0 0, c)

/-- parse_u16 macro: read two bytes and combine them little endian, the
numeric result of the transmute to u16 on the little-endian targets the
source supports. -/
def parse_u16 (c : Cursor) : Except ParseError (Nat × Cursor) := do
  let (val, c) ← readExact c 2
  pure (val.getD 0 0 + 256 * val.getD 1 0, c)

/-- parse_u32 macro: read four bytes and combine them little endian. -/
def parse_u32 (c : Cursor) : Except ParseError (Nat × Cursor) := do
  let (val, c) ← readExact c 4
  pure (val.getD 0 0 + 256 * val.getD 1 0 + 65536 * val.getD 2 0
        + 16777216 * val.getD 3 0, c)

/-- The numeric value of reinterpreting an unsigned 16-bit value as i16
(two-s-complement), used by the `as i16` cast in parse_i16. -/
def i16FromNat (v : Nat) : Int :=
  if v < 32768 then (v : Int) else (v : Int) - 65536

/-- parse_i16 macro: parse_u16 then cast to i16. -/
def parse_i16 (c : Cursor) : Except ParseError (Int × Cursor) := do
  let (v, c) ← parse_u16 c
  pure (i16FromNat v, c)

/-- States of the UTF-8 validation automaton: how many continuation bytes are
still expected, with dedicated states for the range-restricted second byte
after 0xE0, 0xED, 0xF0 and 0xF4. -/
inductive Utf8State where
  | start
  | one
  | two
  | twoLow
  | twoHigh
  | three
  | threeLow
  | threeHigh
  | bad
deriving DecidableEq

/-- One step of the UTF-8 validation automaton. -/
def utf8Step (s : Utf8State) (b : Nat) : Utf8State :=
  match s with
  | .start =>
    if b ≤ 0x7F then .start
    else if 0xC2 ≤ b ∧ b ≤ 0xDF then .one
    else if b = 0xE0 then .twoLow
    else if (0xE1 ≤ b ∧ b ≤ 0xEC) ∨ b = 0xEE ∨ b = 0xEF then .two
    else if b = 0xED then .twoHigh
    else if b = 0xF0 then .threeLow
    else if 0xF1 ≤ b ∧ b ≤ 0xF3 then .three
    else if b = 0xF4 then .threeHigh
    else .bad
  | .one => if 0x80 ≤ b ∧ b ≤ 0xBF then .start else .bad
  | .two => if 0x80 ≤ b ∧ b ≤ 0xBF then .one else .bad
  | .twoLow => if 0xA0 ≤ b ∧ b ≤ 0xBF then .one else .bad
  | .twoHigh => if 0x80 ≤ b ∧ b ≤ 0x9F then .one else .bad
  | .three => if 0x80 ≤ b ∧ b ≤ 0xBF then .two else .bad
  | .threeLow => if 0x90 ≤ b ∧ b ≤ 0xBF then .two else .bad
  | .threeHigh => if 0x80 ≤ b ∧ b ≤ 0x8F then .two else .bad
  | .bad => .bad

/-- Whether a byte list is valid UTF-8, the success condition of
String::from_utf8. -/
def utf8Valid (l : List Nat) : Bool :=
  (l.foldl utf8Step .start) = .start

/-- parse_string macro: BufRead::read_until the byte 0 (consuming the
terminator when present, reading to the end of the buffer otherwise), then
pop the last collected byte, failing with "Invalid string" only when nothing
was collected, and finally String::from_utf8 on the remaining bytes.  The
string is returned as its byte list. -/
def parse_string (c : Cursor) : Except ParseError (List Nat × Cursor) :=
  let rem := c.data.drop c.pos
  let collected := match rem.findIdx? (fun b => b == 0) with
    | some i => rem.take (i + 1)
    | none => rem
  let c2 : Cursor := ⟨c.data, c.pos + collected.length⟩
  if collected.isEmpty then
    Except.error ParseError.invalidString
  else if utf8Valid collected.dropLast then
    Except.ok (collected.dropLast, c2)
  else
    Except.error ParseError.invalidUtf8

/-- The Info block of the decoded document (struct Info).  The font name is
kept as its UTF-8 byte list. -/
structure Info where
  font_size : Int
  smooth : Bool
  unicode : Bool
  italic : Bool
  bold : Bool
  fixed_height : Bool
  charset : Nat
  stretch_h : Nat
  aa : Nat
  padding_up : Nat
  padding_right : Nat
  padding_down : Nat
  padding_left : Nat
  spacing_horiz : Nat
  spacing_vert : Nat
  outline : Nat
  font_name : List Nat
deriving DecidableEq

/-- The Common block of the decoded document (struct Common). -/
structure Common where
  line_height : Nat
  base : Nat
  scale_w : Nat
  scale_h : Nat
  pages : Nat
  packed : Bool
  alpha_chnl : Nat
  red_chnl : Nat
  green_chnl : Nat
  blue_chnl : Nat
deriving DecidableEq

/-- One glyph record (struct Char). -/
structure Char where
  id : Nat
  x : Nat
  y : Nat
  width : Nat
  height : Nat
  xoffset : Int
  yoffset : Int
  xadvance : Int
  page : Nat
  chnl : Nat
deriving DecidableEq

/-- One kerning pair (struct Kerning). -/
structure Kerning where
  first : Nat
  second : Nat
  amount : Int
deriving DecidableEq

/-- HashMap::insert keyed by u32, modelled on an association list: replace
the binding when the key is present, append it otherwise.  Observable
behaviour (lookup, key uniqueness) matches HashMap. -/
def mapInsert (m : List (Nat × Char)) (k : Nat) (v : Char) : List (Nat × Char) :=
  match m with
  | [] => [(k, v)]
  | (k0, v0) :: rest =>
    if k0 = k then (k, v) :: rest else (k0, v0) :: mapInsert rest k v

/-- HashMap lookup on the association-list model. -/
def mapFind? (m : List (Nat × Char)) (key : Nat) : Option Char :=
  match m with
  | [] => none
  | (k0, v0) :: rest => if k0 = key then some v0 else mapFind? rest key

/-- The char_map construction of parse_bin: insert every decoded glyph keyed
by its id, in decoded order. -/
def buildCharMap (cs : List Char) : List (Nat × Char) :=
  cs.foldl (fun m c => mapInsert m c.id c) []

/-- The decoded document (struct BMFont), with the glyph map in the
association-list model. -/
structure BMFont where
  info : Info
  common : Common
  pages : List (List Nat)
  chars : List (Nat × Char)
  kernings : Option (List Kerning)
deriving DecidableEq

/-- The Info block portion of parse_bin: skip the 5 header bytes (block type
and size, trusted and unchecked), then read the fixed fields and the
null-terminated font name, decomposing the flags byte by bit masks. -/
def parseInfoBlock (c : Cursor) : Except ParseError (Info × Cursor) := do
  let c ← seekCurrent c 5
  let (font_size, c) ← parse_i16 c
  let (bit_field, c) ← parse_u8 c
  let (charset, c) ← parse_u8 c
  let (stretch_h, c) ← parse_u16 c
  let (aa, c) ← parse_u8 c
  let (padding_up, c) ← parse_u8 c
  let (padding_right, c) ← parse_u8 c
  let (padding_down, c) ← parse_u8 c
  let (padding_left, c) ← parse_u8 c
  let (spacing_horiz, c) ← parse_u8 c
  let (spacing_vert, c) ← parse_u8 c
  let (outline, c) ← parse_u8 c
  let (font_name, c) ← parse_string c
  pure ({ font_size := font_size
          smooth := bit_field &&& (1 <<< 7) != 0
          unicode := bit_field &&& (1 <<< 6) != 0
          italic := bit_field &&& (1 <<< 5) != 0
          bold := bit_field &&& (1 <<< 4) != 0
          fixed_height := bit_field &&& (1 <<< 3) != 0
          charset := charset
          stretch_h := stretch_h
          aa := aa
          padding_up := padding_up
          padding_right := padding_right
          padding_down := padding_down
          padding_left := padding_left
          spacing_horiz := spacing_horiz
          spacing_vert := spacing_vert
          outline := outline
          font_name := font_name }, c)

/-- The Common block portion of parse_bin: skip the 5 header bytes, then read
the fixed fields; bit 0 of the packed byte is the packed flag. -/
def parseCommonBlock (c : Cursor) : Except ParseError (Common × Cursor) := do
  let c ← seekCurrent c 5
  let (line_height, c) ← parse_u16 c
  let (base, c) ← parse_u16 c
  let (scale_w, c) ← parse_u16 c
  let (scale_h, c) ← parse_u16 c
  let (pages, c) ← parse_u16 c
  let (packedByte, c) ← parse_u8 c
  let (alpha_chnl, c) ← parse_u8 c
  let (red_chnl, c) ← parse_u8 c
  let (green_chnl, c) ← parse_u8 c
  let (blue_chnl, c) ← parse_u8 c
  pure ({ line_height := line_height
          base := base
          scale_w := scale_w
          scale_h := scale_h
          pages := pages
          packed := packedByte &&& 1 != 0
          alpha_chnl := alpha_chnl
          red_chnl := red_chnl
          green_chnl := green_chnl
          blue_chnl := blue_chnl }, c)

/-- The loop of the Pages block: read the given number of null-terminated
page name strings in sequence. -/
def parsePagesStrings : Cursor → Nat → Except ParseError (List (List Nat) × Cursor)
  | c, 0 => Except.ok ([], c)
  | c, n + 1 => do
    let (s, c) ← parse_string c
    let (rest, c2) ← parsePagesStrings c n
    pure (s :: rest, c2)

/-- The Pages block portion of parse_bin: skip the 5 header bytes, then read
one string per declared page. -/
def parsePagesBlock (c : Cursor) (n : Nat) : Except ParseError (List (List Nat) × Cursor) := do
  let c ← seekCurrent c 5
  parsePagesStrings c n

/-- One iteration of the Chars block loop: one 20-byte glyph record, fields
in source order. -/
def parseCharRecord (c : Cursor) : Except ParseError (Char × Cursor) := do
  let (id, c) ← parse_u32 c
  let (x, c) ← parse_u16 c
  let (y, c) ← parse_u16 c
  let (width, c) ← parse_u16 c
  let (height, c) ← parse_u16 c
  let (xoffset, c) ← parse_i16 c
  let (yoffset, c) ← parse_i16 c
  let (xadvance, c) ← parse_i16 c
  let (page, c) ← parse_u8 c
  let (chnl, c) ← parse_u8 c
  pure ({ id := id, x := x, y := y, width := width, height := height
          xoffset := xoffset, yoffset := yoffset, xadvance := xadvance
          page := page, chnl := chnl }, c)

/-- The Chars block loop: read the given number of glyph records in order. -/
def parseCharRecords : Cursor → Nat → Except ParseError (List Char × Cursor)
  | c, 0 => Except.ok ([], c)
  | c, n + 1 => do
    let (ch, c) ← parseCharRecord c
    let (rest, c2) ← parseCharRecords c n
    pure (ch :: rest, c2)

/-- The Chars block portion of parse_bin: skip the 1 type byte, read the
declared u32 block size, and read size / size_of::<Char>() glyph records.
size_of::<Char>() is 20 (field bytes 4+2+2+2+2+2+2+2+1+1 = 20, already a
multiple of the 4-byte alignment), and the division truncates. -/
def parseCharsBlock (c : Cursor) : Except ParseError (List Char × Cursor) := do
  let c ← seekCurrent c 1
  let (size, c) ← parse_u32 c
  parseCharRecords c (size / 20)

/-- One iteration of the Kernings block loop: u32 first, u32 second, i16
amount (10 bytes read). -/
def parseKerningRecord (c : Cursor) : Except ParseError (Kerning × Cursor) := do
  let (first, c) ← parse_u32 c
  let (second, c) ← parse_u32 c
  let (amount, c) ← parse_i16 c
  pure ({ first := first, second := second, amount := amount }, c)

/-- The Kernings block loop: read the given number of pairs in order. -/
def parseKerningRecords : Cursor → Nat → Except ParseError (List Kerning × Cursor)
  | c, 0 => Except.ok ([], c)
  | c, n + 1 => do
    let (p, c) ← parseKerningRecord c
    let (rest, c2) ← parseKerningRecords c n
    pure (p :: rest, c2)

/-- The optional Kernings block of parse_bin: attempted only when the cursor
position is still below the length of the input, in which case the source
skips the 1 type byte, reads the declared u32 block size, and reads
size / size_of::<Kerning>() pairs.  size_of::<Kerning>() is 12: the field
bytes are 4+4+2 = 10, padded to the next multiple of the 4-byte alignment of
u32, so the divisor in the source is 12 even though each pair read consumes
10 bytes. -/
def parseKerningsOpt (len : Nat) (c : Cursor) : Except ParseError (Option (List Kerning) × Cursor) :=
  if c.pos < len then do
    let c ← seekCurrent c 1
    let (size, c) ← parse_u32 c
    let (pairs_list, c) ← parseKerningRecords c (size / 12)
    pure (some pairs_list, c)
  else
    pure (none, c)

/-- parse_bin: the whole decoder.  Checks the 4-byte signature, then decodes
the Info, Common, Pages and Chars blocks in sequence, the optional Kernings
block, and assembles the document with the glyph map keyed by char id. -/
def parse_bin (bytes : List Nat) : Except ParseError BMFont := do
  let (sig, buff) ← readExact ⟨bytes, 0⟩ 4
  if sig ≠ [66, 77, 70, 3] then
    Except.error ParseError.badSignature
  else do
    let (block_info, buff) ← parseInfoBlock buff
    let (block_common, buff) ← parseCommonBlock buff
    let (block_pages, buff) ← parsePagesBlock buff block_common.pages
    let (block_chars, buff) ← parseCharsBlock buff
    let (block_kernings, _) ← parseKerningsOpt bytes.length buff
    pure { info := block_info
           common := block_common
           pages := block_pages
           chars := buildCharMap block_chars
           kernings := block_kernings }

/-- str_to_chars: resolve every byte of the text in the glyph map, in input
order.  The HashMap index operation of the source panics on a missing key;
the panic is modelled as the value none. -/
def str_to_chars (f : BMFont) (s : List Nat) : Option (List Char) :=
  match s with
  | [] => some []
  | b :: rest =>
    match mapFind? f.chars b with
    | none => none
    | some g =>
      match str_to_chars f rest with
      | none => none
      | some gs => some (g :: gs)

/-! Concrete byte buffers used to evaluate the decoder on explicit inputs. -/

/-- Signature, Info (font_size 12, flags 0x80, charset 0, stretch 100, aa 1,
paddings and spacing 0, outline 0, name "A"), Common (line height 20, base 16,
scale 256x256, one page, unpacked, zero channels) and Pages ("a") sections of
a well-formed buffer. -/
def basePrefix : List Nat :=
  [66, 77, 70, 3]
  ++ [1, 0, 0, 0, 0]
  ++ [12, 0] ++ [128] ++ [0] ++ [100, 0] ++ [1] ++ [0, 0, 0, 0] ++ [0, 0] ++ [0]
  ++ [65, 0]
  ++ [2, 0, 0, 0, 0]
  ++ [20, 0, 16, 0, 0, 1, 0, 1, 1, 0, 0, 0, 0, 0, 0]
  ++ [3, 0, 0, 0, 0]
  ++ [97, 0]

/-- One 20-byte glyph record with the given id and xadvance, x 0, y 0,
width 10, height 12, offsets 0, page 0, chnl 15. -/
def charRec (id xadv : Nat) : List Nat :=
  [id, 0, 0, 0] ++ [0, 0] ++ [0, 0] ++ [10, 0] ++ [12, 0] ++ [0, 0] ++ [0, 0]
  ++ [xadv, 0] ++ [0] ++ [15]

/-- A complete well-formed buffer ending exactly at the end of its Chars
block (declared size 20, one glyph, no Kernings block). -/
def baseBuf : List Nat := basePrefix ++ [4] ++ [20, 0, 0, 0] ++ charRec 65 8

/-- baseBuf followed by a Kernings block declaring size 10 and holding one
encoded pair (first 1, second 2, amount 3) of 10 bytes. -/
def c1Buf : List Nat := baseBuf ++ [5] ++ [10, 0, 0, 0] ++ [1, 0, 0, 0, 2, 0, 0, 0, 3, 0]

/-- baseBuf followed by a Kernings block declaring size 24 and holding two
encoded pairs of 10 bytes each (20 bytes of pair data). -/
def c1Buf24 : List Nat := baseBuf ++ [5] ++ [24, 0, 0, 0]
  ++ [1, 0, 0, 0, 2, 0, 0, 0, 3, 0] ++ [4, 0, 0, 0, 5, 0, 0, 0, 6, 0]

/-- Signature plus Info block whose font name field holds the bytes
0xFF 0x41 with no NUL terminator before the end of the buffer. -/
def c2Buf : List Nat := [66, 77, 70, 3] ++ [1, 0, 0, 0, 0]
  ++ [12, 0] ++ [128] ++ [0] ++ [100, 0] ++ [1] ++ [0, 0, 0, 0] ++ [0, 0] ++ [0]
  ++ [255, 65]

/-- baseBuf followed by a Kernings block declaring size 0. -/
def c5Buf : List Nat := baseBuf ++ [5, 0, 0, 0, 0]

/-- A Chars block in isolation: type byte, declared size 45, 45 bytes of
record data (declared size not a multiple of 20). -/
def c4Buf45 : List Nat := [11] ++ [45, 0, 0, 0] ++ List.replicate 45 0

/-- A Chars block in isolation: type byte, declared size 60, 60 bytes of
record data. -/
def c4Buf60 : List Nat := [11] ++ [60, 0, 0, 0] ++ List.replicate 60 0

/-- A buffer whose Chars block holds two glyph records with the same id 65,
first with xadvance 8, then with xadvance 9. -/
def c8Buf : List Nat := basePrefix ++ [4] ++ [40, 0, 0, 0] ++ charRec 65 8 ++ charRec 65 9

/-- baseBuf followed by a single trailing byte, too few for the 1-byte tag
plus 4-byte size of a Kernings block header. -/
def c10Buf : List Nat := baseBuf ++ [7]

/-- An Info block in isolation whose flags byte (offset 7) is 0b11111000. -/
def c9Buf248 : List Nat := [0, 0, 0, 0, 0] ++ [12, 0] ++ [248] ++ [0] ++ [100, 0]
  ++ [1] ++ [0, 0, 0, 0] ++ [0, 0] ++ [0] ++ [65, 0]

/-- An Info block in isolation whose flags byte (offset 7) is 0b00000000. -/
def c9Buf0 : List Nat := [0, 0, 0, 0, 0] ++ [12, 0] ++ [0] ++ [0] ++ [100, 0]
  ++ [1] ++ [0, 0, 0, 0] ++ [0, 0] ++ [0] ++ [65, 0]

/-- A small document value with a single glyph map entry for char id 65,
used to evaluate str_to_chars on explicit inputs. -/
def c7Font : BMFont :=
  ⟨⟨12, true, false, false, false, false, 0, 100, 1, 0, 0, 0, 0, 0, 0, 0, [65]⟩,
   ⟨20, 16, 256, 256, 1, false, 0, 0, 0, 0⟩,
   [[97]],
   [(65, ⟨65, 0, 0, 10, 12, 0, 0, 8, 0, 15⟩)],
   none⟩

/-! Basic lemmas about the Except monad instance and the primitive readers. -/

@[simp] theorem okBind {α β : Type} (a : α) (f : α → Except ParseError β) :
    (Except.ok a >>= f) = f a := rfl

@[simp] theorem errBind {α β : Type} (e : ParseError) (f : α → Except ParseError β) :
    ((Except.error e : Except ParseError α) >>= f) = Except.error e := rfl

@[simp] theorem pureEq {α : Type} (a : α) : (pure a : Except ParseError α) = Except.ok a := rfl

theorem bind_ok_elim {α β : Type} {m : Except ParseError α} {f : α → Except ParseError β}
    {b : β} (h : (m >>= f) = Except.ok b) : ∃ a, m = Except.ok a ∧ f a = Except.ok b := by
  cases m with
  | error e => simp at h
  | ok a => exact ⟨a, rfl, by simpa using h⟩

theorem readExact_ok {c : Cursor} {n : Nat} {v : List Nat} {c2 : Cursor}
    (h : readExact c n = Except.ok (v, c2)) :
    v = (c.data.drop c.pos).take n ∧ c2.data = c.data ∧ c2.pos = c.pos + n := by
  unfold readExact at h
  split at h
  · cases h
    exact ⟨rfl, rfl, rfl⟩
  · cases h

theorem parse_u8_ok {c : Cursor} {v : Nat} {c2 : Cursor}
    (h : parse_u8 c = Except.ok (v, c2)) :
    v = c.data.getD c.pos 0 ∧ c2.data = c.data ∧ c2.pos = c.pos + 1 := by
  unfold parse_u8 at h
  obtain ⟨⟨w, c1⟩, h1, h⟩ := bind_ok_elim h
  dsimp only at h
  rw [pureEq] at h
  cases h
  obtain ⟨hv, hd, hp⟩ := readExact_ok h1
  refine ⟨?_, hd, hp⟩
  subst hv
  simp [List.getD]

theorem parse_u16_ok {c : Cursor} {v : Nat} {c2 : Cursor}
    (h : parse_u16 c = Except.ok (v, c2)) :
    c2.data = c.data ∧ c2.pos = c.pos + 2 := by
  unfold parse_u16 at h
  obtain ⟨⟨w, c1⟩, h1, h⟩ := bind_ok_elim h
  dsimp only at h
  rw [pureEq] at h
  cases h
  obtain ⟨_, hd, hp⟩ := readExact_ok h1
  exact ⟨hd, hp⟩

theorem parse_u32_ok {c : Cursor} {v : Nat} {c2 : Cursor}
    (h : parse_u32 c = Except.ok (v, c2)) :
    c2.data = c.data ∧ c2.pos = c.pos + 4 := by
  unfold parse_u32 at h
  obtain ⟨⟨w, c1⟩, h1, h⟩ := bind_ok_elim h
  dsimp only at h
  rw [pureEq] at h
  cases h
  obtain ⟨_, hd, hp⟩ := readExact_ok h1
  exact ⟨hd, hp⟩

theorem parse_i16_ok {c : Cursor} {v : Int} {c2 : Cursor}
    (h : parse_i16 c = Except.ok (v, c2)) :
    c2.data = c.data ∧ c2.pos = c.pos + 2 := by
  unfold parse_i16 at h
  obtain ⟨⟨w, c1⟩, h1, h⟩ := bind_ok_elim h
  dsimp only at h
  rw [pureEq] at h
  cases h
  exact parse_u16_ok h1

/-- Claim C6: for every buffer of at least 4 bytes whose first 4 bytes differ
from the literal 66, 77, 70, 3, parse_bin fails with the bad-signature error
regardless of the remaining content, returning no document. -/
theorem c6_bad_signature (bytes : List Nat) (h4 : 4 ≤ bytes.length)
    (hsig : bytes.take 4 ≠ [66, 77, 70, 3]) :
    parse_bin bytes = Except.error ParseError.badSignature := by
  unfold parse_bin
  have hre : readExact ⟨bytes, 0⟩ 4 = Except.ok (bytes.take 4, ⟨bytes, 4⟩) := by
    unfold readExact
    rw [if_pos (show 4 ≤ (Cursor.mk bytes 0).data.length - (Cursor.mk bytes 0).pos by
      dsimp only; omega)]
    simp
  rw [hre]
  simp only [bind, Except.bind]
  rw [if_pos hsig]

/-- Claim C6 witness: the all-zero 4-byte buffer decodes to the bad-signature
error. -/
theorem c6_bad_signature_witness :
    parse_bin [0, 0, 0, 0] = Except.error ParseError.badSignature :=
  c6_bad_signature [0, 0, 0, 0] (by decide) (by decide)

/-- Claim C1 (code bug): the Kernings pair count is size / 12, not size / 10.
On c1Buf, whose Kernings block declares size 10 and holds one encoded
10-byte pair, parse_bin succeeds with zero pairs (10 / 12 = 0) and never
reads the pair, where the claim requires one pair; on c1Buf24, a declared
size of 24 yields two pairs even though only 20 bytes of pair data follow
the header, because each pair read consumes 10 bytes while the count divides
by 12. -/
theorem c1_kerning_pair_count :
    (parse_bin c1Buf).map (fun d => d.kernings) = Except.ok (some []) ∧
    (parse_bin c1Buf24).map (fun d => d.kernings) =
      Except.ok (some [⟨1, 2, 3⟩, ⟨4, 5, 6⟩]) :=
  ⟨rfl, rfl⟩

/-- Claim C2 (code bug): parse_string pops the last collected byte without
checking that it is the NUL terminator.  Reading a string field whose
remaining bytes are 65, 66 with no terminator succeeds with the one-byte
string 65 (the final byte 66 silently dropped) instead of failing; and the
full decode of c2Buf, whose font name bytes are 255, 65 with no terminator,
fails with the UTF-8 error instead of the truncation error the claim
requires. -/
theorem c2_unterminated_string :
    parse_string ⟨[65, 66], 0⟩ = Except.ok ([65], ⟨[65, 66], 2⟩) ∧
    parse_bin c2Buf = Except.error ParseError.invalidUtf8 :=
  ⟨rfl, rfl⟩

/-- Claim C3 counterexample: a 5-byte block-header skip performed when only
one byte remains does not fail: Cursor seeking is total and leaves the
position past the end of the buffer. -/
theorem c3_skip_counterexample :
    seekCurrent ⟨[66, 77, 70, 3, 9], 4⟩ 5 = Except.ok ⟨[66, 77, 70, 3, 9], 9⟩ ∧
    (seekCurrent ⟨[66, 77, 70, 3, 9], 4⟩ 5).isOk = true :=
  ⟨rfl, rfl⟩

/-- Claim C3 as amended: every read that would consume bytes past the end of
the buffer fails with the UnexpectedEof (truncation) error and returns no
partial result; a skip never fails and simply advances the position, possibly
past the end; consequently a buffer with a valid signature but fewer than 5
bytes after it (so the 5-byte Info header skip passes the end) makes decode
fail with the truncation error at the read following the skip. -/
theorem c3_reads_truncated_skips_total :
    (∀ (c : Cursor) (n : Nat), c.data.length - c.pos < n →
        readExact c n = Except.error ParseError.unexpectedEof) ∧
    (∀ (c : Cursor) (n : Nat), seekCurrent c n = Except.ok ⟨c.data, c.pos + n⟩) ∧
    (∀ (bytes : List Nat), bytes.take 4 = [66, 77, 70, 3] → bytes.length < 9 →
        parse_bin bytes = Except.error ParseError.unexpectedEof) := by
  refine ⟨?_, ?_, ?_⟩
  · intro c n h
    unfold readExact
    rw [if_neg (by omega)]
  · intro c n
    rfl
  · intro bytes hsigeq hlen
    have h4 : 4 ≤ bytes.length := by
      have hlt := congrArg List.length hsigeq
      simp at hlt
      omega
    unfold parse_bin
    have hre : readExact ⟨bytes, 0⟩ 4 = Except.ok ([66, 77, 70, 3], ⟨bytes, 4⟩) := by
      unfold readExact
      rw [if_pos (show 4 ≤ (Cursor.mk bytes 0).data.length - (Cursor.mk bytes 0).pos by
        dsimp only; omega)]
      simp [hsigeq]
    rw [hre]
    simp only [bind, Except.bind]
    rw [if_neg (by simp)]
    have hinfo : parseInfoBlock ⟨bytes, 4⟩ = Except.error ParseError.unexpectedEof := by
      unfold parseInfoBlock seekCurrent
      simp only [bind, Except.bind]
      have h16 : parse_i16 ⟨bytes, 4 + 5⟩ = Except.error ParseError.unexpectedEof := by
        unfold parse_i16 parse_u16 readExact
        rw [if_neg (show ¬ 2 ≤ (Cursor.mk bytes (4 + 5)).data.length -
            (Cursor.mk bytes (4 + 5)).pos by dsimp only; omega)]
        simp only [bind, Except.bind]
      rw [h16]
    rw [hinfo]

/-- Claim C3 witness: a read of 4 bytes with 3 remaining fails with the
truncation error; a skip of 5 from position 1 of a 1-byte buffer succeeds and
lands at position 6; the 4-byte buffer holding only the signature (0 bytes
left for the 5-byte Info header skip) decodes to the truncation error. -/
theorem c3_witness :
    readExact ⟨[1, 2, 3], 0⟩ 4 = Except.error ParseError.unexpectedEof ∧
    seekCurrent ⟨[9], 1⟩ 5 = Except.ok ⟨[9], 6⟩ ∧
    parse_bin [66, 77, 70, 3] = Except.error ParseError.unexpectedEof :=
  ⟨c3_reads_truncated_skips_total.1 ⟨[1, 2, 3], 0⟩ 4 (by decide),
   c3_reads_truncated_skips_total.2.1 ⟨[9], 1⟩ 5,
   c3_reads_truncated_skips_total.2.2 [66, 77, 70, 3] (by decide) (by decide)⟩

/-- Claim C5: when the cursor position after the Chars block equals the
buffer length the Kernings stage yields the absence value none and decode
returns kernings = none (baseBuf); when a Kernings block header declaring
size 0 follows, the stage consumes the 5 header bytes and yields some of the
empty list, as on c5Buf. -/
theorem c5_kerning_presence :
    (∀ (len : Nat) (c : Cursor), c.pos = len →
        parseKerningsOpt len c = Except.ok (none, c)) ∧
    (∀ (len : Nat) (c : Cursor), c.pos < len →
        (c.data.drop (c.pos + 1)).take 4 = [0, 0, 0, 0] →
        parseKerningsOpt len c = Except.ok (some [], ⟨c.data, c.pos + 5⟩)) ∧
    (parse_bin baseBuf).map (fun d => d.kernings) = Except.ok none ∧
    (parse_bin c5Buf).map (fun d => d.kernings) = Except.ok (some []) := by
  refine ⟨?_, ?_, rfl, rfl⟩
  · intro len c h
    unfold parseKerningsOpt
    rw [if_neg (by omega)]
    rfl
  · intro len c h1 hzero
    have hlen4 : 4 ≤ c.data.length - (c.pos + 1) := by
      have hlt := congrArg List.length hzero
      simp at hlt
      omega
    unfold parseKerningsOpt
    rw [if_pos h1]
    unfold seekCurrent
    simp only [bind, Except.bind]
    have h32 : parse_u32 ⟨c.data, c.pos + 1⟩ = Except.ok (0, ⟨c.data, c.pos + 1 + 4⟩) := by
      unfold parse_u32 readExact
      rw [if_pos (show 4 ≤ (Cursor.mk c.data (c.pos + 1)).data.length -
          (Cursor.mk c.data (c.pos + 1)).pos by dsimp only; omega)]
      simp only [bind, Except.bind]
      rw [hzero]
      rfl
    rw [h32]
    simp only [bind, Except.bind]
    rw [show (0 : Nat) / 12 = 0 from rfl]
    simp only [parseKerningRecords]
    simp only [bind, Except.bind, pure, Except.pure]

/-- Claim C5 witness: the stage yields none at a cursor already at the
buffer length, and some of the empty list on a 5-byte header declaring size
0. -/
theorem c5_witness :
    parseKerningsOpt 1 ⟨[5], 1⟩ = Except.ok (none, ⟨[5], 1⟩) ∧
    parseKerningsOpt 5 ⟨[9, 0, 0, 0, 0], 0⟩ =
      Except.ok (some [], ⟨[9, 0, 0, 0, 0], 0 + 5⟩) :=
  ⟨c5_kerning_presence.1 1 ⟨[5], 1⟩ rfl,
   c5_kerning_presence.2.1 5 ⟨[9, 0, 0, 0, 0], 0⟩ (by decide) (by decide)⟩

/-- Claim C10: whenever at least one byte but fewer than 5 bytes remain
after the Chars block, the Kernings stage is attempted and fails with the
truncation error while reading the block size, so decode fails rather than
returning a document; c10Buf (baseBuf plus one trailing byte) decodes to the
truncation error. -/
theorem c10_trailing_bytes :
    (∀ (c : Cursor), c.pos < c.data.length → c.data.length < c.pos + 5 →
        parseKerningsOpt c.data.length c = Except.error ParseError.unexpectedEof) ∧
    parse_bin c10Buf = Except.error ParseError.unexpectedEof := by
  refine ⟨?_, rfl⟩
  intro c h1 h2
  unfold parseKerningsOpt
  rw [if_pos h1]
  unfold seekCurrent
  simp only [bind, Except.bind]
  have h32 : parse_u32 ⟨c.data, c.pos + 1⟩ = Except.error ParseError.unexpectedEof := by
    unfold parse_u32 readExact
    rw [if_neg (show ¬ 4 ≤ (Cursor.mk c.data (c.pos + 1)).data.length -
        (Cursor.mk c.data (c.pos + 1)).pos by dsimp only; omega)]
    simp only [bind, Except.bind]
  rw [h32]

/-- Claim C10 witness: with one byte remaining after the Chars block (three
bytes of data, position 1 at its end stage), the Kernings stage fails with
the truncation error. -/
theorem c10_witness :
    parseKerningsOpt 3 ⟨[1, 2, 3], 1⟩ = Except.error ParseError.unexpectedEof :=
  c10_trailing_bytes.1 ⟨[1, 2, 3], 1⟩ (by decide) (by decide)

theorem parseCharRecord_ok {c : Cursor} {ch : Char} {c2 : Cursor}
    (h : parseCharRecord c = Except.ok (ch, c2)) :
    c2.data = c.data ∧ c2.pos = c.pos + 20 := by
  unfold parseCharRecord at h
  obtain ⟨⟨v1, ca⟩, h1, h⟩ := bind_ok_elim h
  dsimp only at h
  obtain ⟨⟨v2, cb⟩, h2, h⟩ := bind_ok_elim h
  dsimp only at h
  obtain ⟨⟨v3, cc⟩, h3, h⟩ := bind_ok_elim h
  dsimp only at h
  obtain ⟨⟨v4, cd⟩, h4, h⟩ := bind_ok_elim h
  dsimp only at h
  obtain ⟨⟨v5, ce⟩, h5, h⟩ := bind_ok_elim h
  dsimp only at h
  obtain ⟨⟨v6, cf⟩, h6, h⟩ := bind_ok_elim h
  dsimp only at h
  obtain ⟨⟨v7, cg⟩, h7, h⟩ := bind_ok_elim h
  dsimp only at h
  obtain ⟨⟨v8, ci⟩, h8, h⟩ := bind_ok_elim h
  dsimp only at h
  obtain ⟨⟨v9, cj⟩, h9, h⟩ := bind_ok_elim h
  dsimp only at h
  obtain ⟨⟨v10, ck⟩, h10, h⟩ := bind_ok_elim h
  dsimp only at h
  rw [pureEq] at h
  cases h
  obtain ⟨d1, p1⟩ := parse_u32_ok h1
  obtain ⟨d2, p2⟩ := parse_u16_ok h2
  obtain ⟨d3, p3⟩ := parse_u16_ok h3
  obtain ⟨d4, p4⟩ := parse_u16_ok h4
  obtain ⟨d5, p5⟩ := parse_u16_ok h5
  obtain ⟨d6, p6⟩ := parse_i16_ok h6
  obtain ⟨d7, p7⟩ := parse_i16_ok h7
  obtain ⟨d8, p8⟩ := parse_i16_ok h8
  obtain ⟨_, d9, p9⟩ := parse_u8_ok h9
  obtain ⟨_, d10, p10⟩ := parse_u8_ok h10
  refine ⟨by rw [d10, d9, d8, d7, d6, d5, d4, d3, d2, d1], by omega⟩

theorem parseCharRecords_ok :
    ∀ (n : Nat) (c : Cursor) (cs : List Char) (c2 : Cursor),
      parseCharRecords c n = Except.ok (cs, c2) →
      cs.length = n ∧ c2.data = c.data ∧ c2.pos = c.pos + 20 * n := by
  intro n
  induction n with
  | zero =>
    intro c cs c2 h
    simp only [parseCharRecords] at h
    cases h
    simp
  | succ n ih =>
    intro c cs c2 h
    simp only [parseCharRecords] at h
    obtain ⟨⟨ch, c1⟩, h1, h⟩ := bind_ok_elim h
    dsimp only at h
    obtain ⟨⟨rest, c3⟩, h2, h⟩ := bind_ok_elim h
    dsimp only at h
    rw [pureEq] at h
    cases h
    obtain ⟨hd1, hp1⟩ := parseCharRecord_ok h1
    obtain ⟨hl, hd2, hp2⟩ := ih c1 rest c2 h2
    refine ⟨by simp [hl], by rw [hd2, hd1], by omega⟩

/-- Claim C4: when the Chars block parses successfully with a declared
unsigned 32-bit size, the glyph list holds exactly size / 20 records
(truncating division) and the stage consumes exactly the 5 header bytes plus
20 bytes per glyph, so the size mod 20 remainder bytes of the declared block
are left unread by it without an error. -/
theorem c4_glyph_count (buff : Cursor) (cs : List Char) (c2 : Cursor)
    (size : Nat) (c1 : Cursor)
    (hsize : parse_u32 ⟨buff.data, buff.pos + 1⟩ = Except.ok (size, c1))
    (hok : parseCharsBlock buff = Except.ok (cs, c2)) :
    cs.length = size / 20 ∧ c2.data = buff.data ∧
      c2.pos = buff.pos + 5 + 20 * (size / 20) := by
  unfold parseCharsBlock seekCurrent at hok
  simp only [bind, Except.bind] at hok
  rw [hsize] at hok
  dsimp only at hok
  obtain ⟨hcd, hcp⟩ := parse_u32_ok hsize
  have hcd2 : c1.data = buff.data := hcd
  have hcp2 : c1.pos = buff.pos + 1 + 4 := hcp
  obtain ⟨hl, hd, hp⟩ := parseCharRecords_ok (size / 20) c1 cs c2 hok
  exact ⟨hl, by rw [hd, hcd2], by omega⟩

/-- Claim C4 witness: a Chars block declaring size 45 over 45 zero bytes
yields exactly two glyph records with the cursor layed 5 bytes before the end
of the declared data (5 trailing bytes unread by the block), and a block
declaring size 60 yields exactly three records consuming all 60 bytes. -/
theorem c4_witness :
    (([⟨0, 0, 0, 0, 0, 0, 0, 0, 0, 0⟩, ⟨0, 0, 0, 0, 0, 0, 0, 0, 0, 0⟩] :
        List Char).length = 45 / 20 ∧
      (Cursor.mk c4Buf45 45).data = (Cursor.mk c4Buf45 0).data ∧
      (Cursor.mk c4Buf45 45).pos = (Cursor.mk c4Buf45 0).pos + 5 + 20 * (45 / 20)) ∧
    (([⟨0, 0, 0, 0, 0, 0, 0, 0, 0, 0⟩, ⟨0, 0, 0, 0, 0, 0, 0, 0, 0, 0⟩,
        ⟨0, 0, 0, 0, 0, 0, 0, 0, 0, 0⟩] : List Char).length = 60 / 20 ∧
      (Cursor.mk c4Buf60 65).data = (Cursor.mk c4Buf60 0).data ∧
      (Cursor.mk c4Buf60 65).pos = (Cursor.mk c4Buf60 0).pos + 5 + 20 * (60 / 20)) :=
  ⟨c4_glyph_count ⟨c4Buf45, 0⟩ _ ⟨c4Buf45, 45⟩ 45 ⟨c4Buf45, 5⟩ (by rfl) (by rfl),
   c4_glyph_count ⟨c4Buf60, 0⟩ _ ⟨c4Buf60, 65⟩ 60 ⟨c4Buf60, 5⟩ (by rfl) (by rfl)⟩

/-- Claim C7: str_to_chars resolves every byte of the text in the glyph map
in input order; when every byte has an entry it yields the ordered list of
the corresponding glyphs, and when any byte lacks an entry it fails (the
panic of the HashMap index, modelled as none) rather than skipping the
byte. -/
theorem c7_str_to_chars (f : BMFont) (s : List Nat) :
    ((∀ b ∈ s, (mapFind? f.chars b).isSome = true) →
      (str_to_chars f s).isSome = true ∧
      List.Forall₂ (fun b g => mapFind? f.chars b = some g) s
        ((str_to_chars f s).getD [])) ∧
    (∀ b ∈ s, mapFind? f.chars b = none → str_to_chars f s = none) := by
  induction s with
  | nil =>
    refine ⟨fun _ => ⟨rfl, by simp [str_to_chars]⟩, ?_⟩
    intro b hb
    simp at hb
  | cons b rest ih =>
    constructor
    · intro hall
      have hb := hall b (by simp)
      cases hfb : mapFind? f.chars b with
      | none => rw [hfb] at hb; simp at hb
      | some g =>
        have hrest := ih.1 (fun x hx => hall x (by simp [hx]))
        cases hrs : str_to_chars f rest with
        | none => rw [hrs] at hrest; simp at hrest
        | some gs =>
          have hcons : str_to_chars f (b :: rest) = some (g :: gs) := by
            unfold str_to_chars
            rw [hfb, hrs]
          rw [hcons]
          refine ⟨rfl, ?_⟩
          rw [hrs] at hrest
          exact List.Forall₂.cons hfb hrest.2
    · intro b0 hb0 hnone
      rcases List.mem_cons.mp hb0 with heq | hmem
      · subst heq
        unfold str_to_chars
        rw [hnone]
      · have hr := ih.2 b0 hmem hnone
        unfold str_to_chars
        rw [hr]
        cases hfb : mapFind? f.chars b <;> rfl

/-- Claim C7 witness: on the document value c7Font (glyph map holding only
id 65), looking up the two-byte text 65, 65 succeeds in order, and looking
up the text 66 fails. -/
theorem c7_witness :
    ((str_to_chars c7Font [65, 65]).isSome = true ∧
      List.Forall₂ (fun b g => mapFind? c7Font.chars b = some g) [65, 65]
        ((str_to_chars c7Font [65, 65]).getD [])) ∧
    str_to_chars c7Font [66] = none :=
  ⟨(c7_str_to_chars c7Font [65, 65]).1 (by decide),
   (c7_str_to_chars c7Font [66]).2 66 (by decide) (by decide)⟩

theorem mapFind?_insert (m : List (Nat × Char)) (k : Nat) (v : Char) (key : Nat) :
    mapFind? (mapInsert m k v) key = if k = key then some v else mapFind? m key := by
  induction m with
  | nil =>
    by_cases hk : k = key <;> simp [mapInsert, mapFind?, hk]
  | cons kv rest ih =>
    obtain ⟨k0, v0⟩ := kv
    by_cases h0 : k0 = k
    · subst h0
      by_cases hk : k0 = key <;> simp [mapInsert, mapFind?, hk]
    · by_cases hk : k = key <;> by_cases hk0 : k0 = key <;>
        simp_all [mapInsert, mapFind?]

theorem buildCharMap_find_aux :
    ∀ (cs : List Char) (m0 : List (Nat × Char)) (key : Nat),
      mapFind? (cs.foldl (fun m c => mapInsert m c.id c) m0) key =
        ((cs.reverse.find? (fun c => c.id == key)).map fun c => some c).getD
          (mapFind? m0 key) := by
  intro cs
  induction cs with
  | nil =>
    intro m0 key
    simp
  | cons c rest ih =>
    intro m0 key
    simp only [List.foldl_cons, List.reverse_cons]
    rw [ih, List.find?_append]
    cases hfr : rest.reverse.find? (fun d => d.id == key) with
    | some d => simp [Option.or]
    | none =>
      rw [Option.none_or, mapFind?_insert]
      cases hc : (c.id == key) with
      | true =>
        rw [if_pos (by simpa using hc)]
        simp [List.find?, hc]
      | false =>
        rw [if_neg (by simpa using hc)]
        simp [List.find?, hc]

theorem mem_keys_mapInsert {m : List (Nat × Char)} {k : Nat} {v : Char} {a : Nat}
    (h : a ∈ (mapInsert m k v).map Prod.fst) : a ∈ m.map Prod.fst ∨ a = k := by
  induction m with
  | nil => simpa [mapInsert] using h
  | cons kv rest ih =>
    obtain ⟨k0, v0⟩ := kv
    by_cases h0 : k0 = k
    · have hins : mapInsert ((k0, v0) :: rest) k v = (k, v) :: rest := by
        simp [mapInsert, h0]
      rw [hins] at h
      simp only [List.map_cons, List.mem_cons] at h ⊢
      rcases h with h | h
      · exact Or.inr h
      · exact Or.inl (Or.inr h)
    · have hins : mapInsert ((k0, v0) :: rest) k v = (k0, v0) :: mapInsert rest k v := by
        simp [mapInsert, h0]
      rw [hins] at h
      simp only [List.map_cons, List.mem_cons] at h
      simp only [List.map_cons, List.mem_cons]
      rcases h with h | h
      · exact Or.inl (Or.inl h)
      · rcases ih h with h2 | h2
        · exact Or.inl (Or.inr h2)
        · exact Or.inr h2

theorem nodup_keys_mapInsert {m : List (Nat × Char)} {k : Nat} {v : Char}
    (h : (m.map Prod.fst).Nodup) : ((mapInsert m k v).map Prod.fst).Nodup := by
  induction m with
  | nil => simp [mapInsert]
  | cons kv rest ih =>
    obtain ⟨k0, v0⟩ := kv
    simp only [List.map_cons, List.nodup_cons] at h
    obtain ⟨hnotin, hnd⟩ := h
    by_cases h0 : k0 = k
    · have hins : mapInsert ((k0, v0) :: rest) k v = (k, v) :: rest := by
        simp [mapInsert, h0]
      rw [hins]
      simp only [List.map_cons, List.nodup_cons]
      refine ⟨?_, hnd⟩
      rw [← h0]
      exact hnotin
    · have hins : mapInsert ((k0, v0) :: rest) k v = (k0, v0) :: mapInsert rest k v := by
        simp [mapInsert, h0]
      rw [hins]
      simp only [List.map_cons, List.nodup_cons]
      refine ⟨?_, ih hnd⟩
      intro hmem
      rcases mem_keys_mapInsert hmem with h2 | h2
      · exact hnotin h2
      · exact h0 h2

theorem nodup_keys_buildCharMap_aux :
    ∀ (cs : List Char) (m0 : List (Nat × Char)),
      (m0.map Prod.fst).Nodup →
      ((cs.foldl (fun m c => mapInsert m c.id c) m0).map Prod.fst).Nodup := by
  intro cs
  induction cs with
  | nil =>
    intro m0 h
    simpa using h
  | cons c rest ih =>
    intro m0 h
    simp only [List.foldl_cons]
    exact ih _ (nodup_keys_mapInsert h)

/-- Claim C8: the glyph map built from the decoded record list holds the
latest record in source order for every character code present (lookup
equals find? over the reversed list), its keys hold no duplicates (exactly
one entry per code), and on c8Buf, whose Chars block holds two records with
id 65 and xadvance 8 then 9, the decoded document maps 65 to the later
record with xadvance 9. -/
theorem c8_last_write_wins :
    (∀ (cs : List Char) (key : Nat),
        mapFind? (buildCharMap cs) key = cs.reverse.find? (fun c => c.id == key)) ∧
    (∀ (cs : List Char), ((buildCharMap cs).map Prod.fst).Nodup) ∧
    (parse_bin c8Buf).map (fun d => mapFind? d.chars 65) =
      Except.ok (some ⟨65, 0, 0, 10, 12, 0, 0, 9, 0, 15⟩) := by
  refine ⟨?_, ?_, rfl⟩
  · intro cs key
    unfold buildCharMap
    rw [buildCharMap_find_aux]
    cases hf : cs.reverse.find? (fun c => c.id == key) <;> simp [mapFind?]
  · intro cs
    exact nodup_keys_buildCharMap_aux cs [] (by simp)

theorem land_shift_testBit (b k : Nat) : (b &&& (1 <<< k) != 0) = b.testBit k := by
  rw [Nat.one_shiftLeft, Nat.and_two_pow]
  cases h : b.testBit k
  · simp
  · simp [(Nat.two_pow_pos k).ne']

/-- Claim C9: the Info flags byte (the byte at offset 7 of the Info block,
after the 5 header bytes and the 2-byte font size) is decomposed by bit
masks with bit 7 smooth, bit 6 unicode, bit 5 italic, bit 4 bold and bit 3
fixed height; bits 0 to 2 touch none of the five flags. -/
theorem c9_flag_bits (buff : Cursor) (i : Info) (c2 : Cursor)
    (hok : parseInfoBlock buff = Except.ok (i, c2)) :
    i.smooth = (buff.data.getD (buff.pos + 7) 0).testBit 7 ∧
    i.unicode = (buff.data.getD (buff.pos + 7) 0).testBit 6 ∧
    i.italic = (buff.data.getD (buff.pos + 7) 0).testBit 5 ∧
    i.bold = (buff.data.getD (buff.pos + 7) 0).testBit 4 ∧
    i.fixed_height = (buff.data.getD (buff.pos + 7) 0).testBit 3 := by
  unfold parseInfoBlock seekCurrent at hok
  rw [okBind] at hok
  dsimp only at hok
  obtain ⟨⟨fs, c1⟩, h1, hok⟩ := bind_ok_elim hok
  dsimp only at hok
  obtain ⟨⟨bf, cB⟩, h2, hok⟩ := bind_ok_elim hok
  dsimp only at hok
  obtain ⟨⟨v3, cC⟩, h3, hok⟩ := bind_ok_elim hok
  dsimp only at hok
  obtain ⟨⟨v4, cD⟩, h4, hok⟩ := bind_ok_elim hok
  dsimp only at hok
  obtain ⟨⟨v5, cE⟩, h5, hok⟩ := bind_ok_elim hok
  dsimp only at hok
  obtain ⟨⟨v6, cF⟩, h6, hok⟩ := bind_ok_elim hok
  dsimp only at hok
  obtain ⟨⟨v7, cG⟩, h7, hok⟩ := bind_ok_elim hok
  dsimp only at hok
  obtain ⟨⟨v8, cH⟩, h8, hok⟩ := bind_ok_elim hok
  dsimp only at hok
  obtain ⟨⟨v9, cI⟩, h9, hok⟩ := bind_ok_elim hok
  dsimp only at hok
  obtain ⟨⟨v10, cJ⟩, h10, hok⟩ := bind_ok_elim hok
  dsimp only at hok
  obtain ⟨⟨v11, cK⟩, h11, hok⟩ := bind_ok_elim hok
  dsimp only at hok
  obtain ⟨⟨v12, cL⟩, h12, hok⟩ := bind_ok_elim hok
  dsimp only at hok
  obtain ⟨⟨v13, cM⟩, h13, hok⟩ := bind_ok_elim hok
  dsimp only at hok
  rw [pureEq] at hok
  cases hok
  obtain ⟨hd1, hp1⟩ := parse_i16_ok h1
  have hd1b : c1.data = buff.data := hd1
  have hp1b : c1.pos = buff.pos + 5 + 2 := hp1
  obtain ⟨hbv, _, _⟩ := parse_u8_ok h2
  have hbf : bf = buff.data.getD (buff.pos + 7) 0 := by
    rw [hbv, hd1b, hp1b, show buff.pos + 5 + 2 = buff.pos + 7 by omega]
  simp only [hbf]
  exact ⟨land_shift_testBit _ 7, land_shift_testBit _ 6, land_shift_testBit _ 5,
    land_shift_testBit _ 4, land_shift_testBit _ 3⟩

/-- Claim C9 witness: the Info block with flags byte 248 (0b11111000)
decodes with all five flags true, and with flags byte 0 with all five flags
false, matching the tested bits of those bytes. -/
theorem c9_witness :
    ((Info.mk 12 true true true true true 0 100 1 0 0 0 0 0 0 0 [65]).smooth
        = (c9Buf248.getD (0 + 7) 0).testBit 7 ∧
      (Info.mk 12 true true true true true 0 100 1 0 0 0 0 0 0 0 [65]).unicode
        = (c9Buf248.getD (0 + 7) 0).testBit 6 ∧
      (Info.mk 12 true true true true true 0 100 1 0 0 0 0 0 0 0 [65]).italic
        = (c9Buf248.getD (0 + 7) 0).testBit 5 ∧
      (Info.mk 12 true true true true true 0 100 1 0 0 0 0 0 0 0 [65]).bold
        = (c9Buf248.getD (0 + 7) 0).testBit 4 ∧
      (Info.mk 12 true true true true true 0 100 1 0 0 0 0 0 0 0 [65]).fixed_height
        = (c9Buf248.getD (0 + 7) 0).testBit 3) ∧
    ((Info.mk 12 false false false false false 0 100 1 0 0 0 0 0 0 0 [65]).smooth
        = (c9Buf0.getD (0 + 7) 0).testBit 7 ∧
      (Info.mk 12 false false false false false 0 100 1 0 0 0 0 0 0 0 [65]).unicode
        = (c9Buf0.getD (0 + 7) 0).testBit 6 ∧
      (Info.mk 12 false false false false false 0 100 1 0 0 0 0 0 0 0 [65]).italic
        = (c9Buf0.getD (0 + 7) 0).testBit 5 ∧
      (Info.mk 12 false false false false false 0 100 1 0 0 0 0 0 0 0 [65]).bold
        = (c9Buf0.getD (0 + 7) 0).testBit 4 ∧
      (Info.mk 12 false false false false false 0 100 1 0 0 0 0 0 0 0 [65]).fixed_height
        = (c9Buf0.getD (0 + 7) 0).testBit 3) :=
  ⟨c9_flag_bits ⟨c9Buf248, 0⟩
      ⟨12, true, true, true, true, true, 0, 100, 1, 0, 0, 0, 0, 0, 0, 0, [65]⟩
      ⟨c9Buf248, 21⟩ (by rfl),
   c9_flag_bits ⟨c9Buf0, 0⟩
      ⟨12, false, false, false, false, false, 0, 100, 1, 0, 0, 0, 0, 0, 0, 0, [65]⟩
      ⟨c9Buf0, 21⟩ (by rfl)⟩

end Bmf
